import Mathlib

/-!
Shallow embedding of the `state_machine` code generator
(`macro_impl/src/lib.rs`) of the `lesurp/state_machine` repository, of the
runtime semantics of the dispatch routine it emits, and of the worked
float-parsing machine (`examples/parse_float.rs`).

Identifiers (state names, action names) are modelled as `String`.
The fallible generator is modelled with `Except`; the fatal runtime
post-condition failure is one constructor of the result type of the
generated `next` routine.
-/

/-- AST of one transition edge `A | B => S | T`:
alternative actions paired with allowed target states (`struct Transition`). -/
structure Transition where
  actions : List String
  next_states : List String
deriving DecidableEq

/-- AST of one state block `S { edges }` (`struct StateTransitions`). -/
structure StateTransitions where
  state : String
  transitions : List Transition
deriving DecidableEq

/-- AST of a whole specification (`struct StateMachineDefinition`). -/
structure StateMachineDefinition where
  state_wrapper : String
  action_wrapper : String
  state_transitions : List StateTransitions
deriving DecidableEq

/-- All action occurrences of a state block, in declaration order: the list
the Rust code sums over and inserts into a `HashSet`. -/
def StateTransitions.allActions (st : StateTransitions) : List String :=
  (st.transitions.map Transition.actions).flatten

/-- Rust's `StateTransitions::check_transitions_consistency`: the total count of
action occurrences over all edges of the block equals the count of distinct
action identifiers (the size of the `HashSet` of all of them). -/
def StateTransitions.check_transitions_consistency (st : StateTransitions) : Bool :=
  (st.transitions.map (fun t => t.actions.length)).sum == st.allActions.dedup.length

/-- Contents of the `states` hash set built by `define_wrappers`: every
block's own id together with every edge target, inserted in source order
(the set is unordered, so only the contents are defined here). -/
def collectedStates (smd : StateMachineDefinition) : Finset String :=
  smd.state_transitions.foldl
    (fun acc st =>
      st.transitions.foldl
        (fun acc2 t => t.next_states.foldl (fun a s => insert s a) acc2)
        (insert st.state acc))
    ∅

/-- Contents of the `actions` hash set built by `define_wrappers`: every
action identifier of every edge of every block. -/
def collectedActions (smd : StateMachineDefinition) : Finset String :=
  smd.state_transitions.foldl
    (fun acc st =>
      st.transitions.foldl
        (fun acc2 t => t.actions.foldl (fun a x => insert x a) acc2)
        acc)
    ∅

/-- The symbol information of the emitted artifact: one state variant per
collected state id, one action variant per collected action id. -/
structure Generated where
  stateVariants : Finset String
  actionVariants : Finset String
deriving DecidableEq

/-- Rust's `define_wrappers`: emit the two tagged unions over the collected
identifier sets. -/
def define_wrappers (smd : StateMachineDefinition) : Generated :=
  { stateVariants := collectedStates smd, actionVariants := collectedActions smd }

/-- Build-time failure of the generator. -/
inductive CompileError where
  | duplicateAction (state : String)
deriving DecidableEq

/-- The `state_machine` entry point: the first state block failing the
consistency check aborts the whole compilation, naming that block's state;
otherwise the wrappers and dispatch are emitted. -/
def state_machine (smd : StateMachineDefinition) : Except CompileError Generated :=
  match smd.state_transitions.find? (fun st => !st.check_transitions_consistency) with
  | some st => .error (.duplicateAction st.state)
  | none => .ok (define_wrappers smd)

/-- A runtime state value of the generated wrapper union: a variant tag and
the payload carried by that variant. -/
structure StateVal (V : Type) where
  tag : String
  payload : V
deriving DecidableEq

/-- A runtime action value of the generated wrapper union. -/
structure ActionVal (W : Type) where
  tag : String
  payload : W
deriving DecidableEq

/-- Result of one call of the generated `next` routine.
`ok` is `Ok(state)`, `rejected` is `Err((state, action))`, and
`contractViolation` models the fatal post-condition failure, carrying the
source state name, the action name, the variant actually returned and the
declared allowed-variant list, as the emitted diagnostic does. -/
inductive NextResult (V W : Type) where
  | ok : StateVal V → NextResult V W
  | rejected : StateVal V → ActionVal W → NextResult V W
  | contractViolation : String → String → String → List String → NextResult V W
deriving DecidableEq

/-- The handler table: for a (state-kind, action-kind) pair, the
`State<Wrapper, A>::next` implementation supplied by the host program,
consuming the state payload and the action payload. -/
abbrev Handlers (V W : Type) := String → String → V → W → StateVal V

/-- The first dispatch arm of `define_transition`'s `match action` whose
edge declares the action: all edges contribute dispatch arms. -/
def dispatchFind (st : StateTransitions) (atag : String) : Option Transition :=
  st.transitions.find? (fun t => decide (atag ∈ t.actions))

/-- The first assert arm of `define_transition`'s `match &action` whose edge
declares the action: edges with an empty target list are skipped
(`if t.next_states.is_empty() { continue; }`). -/
def assertFind (st : StateTransitions) (atag : String) : Option Transition :=
  (st.transitions.filter (fun t => !t.next_states.isEmpty)).find?
    (fun t => decide (atag ∈ t.actions))

/-- The generated `fn next(self, action)` (`define_loop` plus one
`define_transition` arm per declared block, in declaration order, and the
final `terminal_state => terminal_state` arm inside `Ok(..)`). -/
def next (smd : StateMachineDefinition) (H : Handlers V W)
    (s : StateVal V) (a : ActionVal W) : NextResult V W :=
  match smd.state_transitions.find? (fun st => decide (st.state = s.tag)) with
  | none => .ok s
  | some st =>
    match dispatchFind st a.tag with
    | none => .rejected s a
    | some _ =>
      let n := H s.tag a.tag s.payload a.payload
      match assertFind st a.tag with
      | none => .ok n
      | some t =>
        if n.tag ∈ t.next_states then .ok n
        else .contractViolation st.state a.tag n.tag t.next_states

/-- The driving loop of the example's `main`: feed actions one by one,
continue on `Ok`, stop (the example panics) on anything else. -/
def drive (smd : StateMachineDefinition) (H : Handlers V W) :
    StateVal V → List (ActionVal W) → Option (StateVal V)
  | s, [] => some s
  | s, a :: rest =>
    match next smd H s a with
    | .ok s2 => drive smd H s2 rest
    | _ => none

/-- The accumulated parse data of the float example (`struct ParseState`);
digits are kept as lists of numerals. -/
structure ParseState where
  is_positive : Bool
  digits_before : List Nat
  digits_after : List Nat
  is_exponent_positive : Bool
  digits_exponent : List Nat
deriving DecidableEq

/-- State payloads of the float example: `ParseSign` carries nothing, every
other state carries a `ParseState`. -/
inductive FPay where
  | unitP
  | ps (p : ParseState)
deriving DecidableEq

/-- Action payloads of the float example. -/
inductive FAct where
  | signA (plus : Bool)
  | digitA (d : Nat)
  | expA
  | dotA
  | eosA
deriving DecidableEq

/-- The specification passed to the generator in `examples/parse_float.rs`. -/
def floatSMD : StateMachineDefinition :=
  { state_wrapper := "FloatParser"
    action_wrapper := "Char"
    state_transitions :=
      [ ⟨"ParseSign", [⟨["Sign", "Digit"], ["ParseDigitsBeforeDot"]⟩]⟩
      , ⟨"ParseDigitsBeforeDot",
          [ ⟨["Digit"], ["ParseDigitsBeforeDot"]⟩
          , ⟨["Dot", "Exponential"], ["ParseDigitsAfterDot"]⟩
          , ⟨["Eos"], ["Finished"]⟩ ]⟩
      , ⟨"ParseDigitsAfterDot",
          [ ⟨["Digit", "Exponential"], ["ParseDigitsAfterDot"]⟩
          , ⟨["Eos"], ["Finished"]⟩ ]⟩
      , ⟨"ParseScientificNotationSign", [⟨["Sign"], ["ParseScientificNotation"]⟩]⟩
      , ⟨"ParseScientificNotation",
          [ ⟨["Digit"], ["ParseScientificNotation"]⟩
          , ⟨["Eos"], ["Finished"]⟩ ]⟩ ] }

/-- The `impl State<FloatParser, _> for _` handler set of the float example,
one case per impl block; the final case is never consulted by the generated
dispatch. -/
def floatHandlers : Handlers FPay FAct := fun stag atag v w =>
  match stag, atag, v, w with
  | "ParseSign", "Sign", _, FAct.signA plus =>
      ⟨"ParseDigitsBeforeDot", .ps ⟨plus, [], [], true, []⟩⟩
  | "ParseSign", "Digit", _, FAct.digitA d =>
      ⟨"ParseDigitsBeforeDot", .ps ⟨true, [d], [], true, []⟩⟩
  | "ParseDigitsBeforeDot", "Dot", FPay.ps p, _ =>
      ⟨"ParseDigitsAfterDot", .ps p⟩
  | "ParseDigitsBeforeDot", "Exponential", FPay.ps p, _ =>
      ⟨"ParseScientificNotation", .ps p⟩
  | "ParseDigitsBeforeDot", "Digit", FPay.ps p, FAct.digitA d =>
      ⟨"ParseDigitsBeforeDot", .ps { p with digits_before := p.digits_before ++ [d] }⟩
  | "ParseDigitsAfterDot", "Exponential", FPay.ps p, _ =>
      ⟨"ParseScientificNotationSign", .ps p⟩
  | "ParseDigitsAfterDot", "Digit", FPay.ps p, FAct.digitA d =>
      ⟨"ParseDigitsAfterDot", .ps { p with digits_after := p.digits_after ++ [d] }⟩
  | "ParseScientificNotation", "Digit", FPay.ps p, FAct.digitA d =>
      ⟨"ParseScientificNotation", .ps { p with digits_exponent := p.digits_exponent ++ [d] }⟩
  | "ParseScientificNotation", "Eos", FPay.ps p, _ =>
      ⟨"Finished", .ps p⟩
  | "ParseDigitsBeforeDot", "Eos", FPay.ps p, _ =>
      ⟨"Finished", .ps p⟩
  | "ParseDigitsAfterDot", "Eos", FPay.ps p, _ =>
      ⟨"Finished", .ps p⟩
  | "ParseScientificNotationSign", "Sign", FPay.ps p, FAct.signA plus =>
      ⟨"ParseScientificNotation", .ps { p with is_exponent_positive := plus }⟩
  | _, _, _, _ => ⟨stag, v⟩

/-! ### Helper lemmas about the symbol collection -/

lemma mem_foldl_insert (l : List String) (init : Finset String) (x : String) :
    x ∈ l.foldl (fun a s => insert s a) init ↔ x ∈ init ∨ x ∈ l := by
  induction l generalizing init with
  | nil => simp
  | cons y ys ih =>
    simp only [List.foldl_cons, ih, Finset.mem_insert, List.mem_cons]
    tauto

lemma mem_statesFold (ts : List Transition) (init : Finset String) (x : String) :
    x ∈ ts.foldl
        (fun acc2 t => t.next_states.foldl (fun a s => insert s a) acc2) init ↔
      x ∈ init ∨ ∃ t ∈ ts, x ∈ t.next_states := by
  induction ts generalizing init with
  | nil => simp
  | cons t ts ih =>
    simp only [List.foldl_cons, ih, mem_foldl_insert, List.mem_cons]
    aesop

lemma mem_actionsFold (ts : List Transition) (init : Finset String) (x : String) :
    x ∈ ts.foldl
        (fun acc2 t => t.actions.foldl (fun a s => insert s a) acc2) init ↔
      x ∈ init ∨ ∃ t ∈ ts, x ∈ t.actions := by
  induction ts generalizing init with
  | nil => simp
  | cons t ts ih =>
    simp only [List.foldl_cons, ih, mem_foldl_insert, List.mem_cons]
    aesop

lemma mem_collectedStates (smd : StateMachineDefinition) (x : String) :
    x ∈ collectedStates smd ↔
      ∃ st ∈ smd.state_transitions,
        x = st.state ∨ ∃ t ∈ st.transitions, x ∈ t.next_states := by
  suffices h : ∀ init : Finset String,
      (x ∈ smd.state_transitions.foldl
        (fun acc st =>
          st.transitions.foldl
            (fun acc2 t => t.next_states.foldl (fun a s => insert s a) acc2)
            (insert st.state acc)) init ↔
      x ∈ init ∨ ∃ st ∈ smd.state_transitions,
        x = st.state ∨ ∃ t ∈ st.transitions, x ∈ t.next_states) by
    simpa [collectedStates] using h ∅
  induction smd.state_transitions with
  | nil => simp
  | cons b bs ih =>
    intro init
    simp only [List.foldl_cons, ih, mem_statesFold, Finset.mem_insert, List.mem_cons]
    aesop

lemma mem_collectedActions (smd : StateMachineDefinition) (x : String) :
    x ∈ collectedActions smd ↔
      ∃ st ∈ smd.state_transitions, ∃ t ∈ st.transitions, x ∈ t.actions := by
  suffices h : ∀ init : Finset String,
      (x ∈ smd.state_transitions.foldl
        (fun acc st =>
          st.transitions.foldl
            (fun acc2 t => t.actions.foldl (fun a s => insert s a) acc2) acc) init ↔
      x ∈ init ∨ ∃ st ∈ smd.state_transitions, ∃ t ∈ st.transitions, x ∈ t.actions) by
    simpa [collectedActions] using h ∅
  induction smd.state_transitions with
  | nil => simp
  | cons b bs ih =>
    intro init
    simp only [List.foldl_cons, ih, mem_actionsFold, List.mem_cons]
    aesop

/-! ### Helper lemmas about the consistency check -/

lemma sum_lengths_eq_allActions (st : StateTransitions) :
    (st.transitions.map (fun t => t.actions.length)).sum = st.allActions.length := by
  unfold StateTransitions.allActions
  rw [List.length_flatten, List.map_map]
  rfl

lemma consistency_iff_nodup (st : StateTransitions) :
    st.check_transitions_consistency = true ↔ st.allActions.Nodup := by
  unfold StateTransitions.check_transitions_consistency
  rw [beq_iff_eq, sum_lengths_eq_allActions]
  constructor
  · intro h
    rw [← List.dedup_eq_self]
    exact (List.dedup_sublist st.allActions).eq_of_length h.symm
  · intro h
    rw [List.dedup_eq_self.mpr h]

lemma unique_edge_of_nodup {st : StateTransitions} (h : st.allActions.Nodup)
    {t1 t2 : Transition} (h1 : t1 ∈ st.transitions) (h2 : t2 ∈ st.transitions)
    {a : String} (ha1 : a ∈ t1.actions) (ha2 : a ∈ t2.actions) : t1 = t2 := by
  by_contra hne
  have hpw : st.transitions.Pairwise (fun u v => u.actions.Disjoint v.actions) :=
    List.pairwise_map.mp (List.nodup_flatten.mp h).2
  have hsym : Symmetric (fun u v : Transition => u.actions.Disjoint v.actions) :=
    fun u v hd x hx1 hx2 => hd hx2 hx1
  exact (hpw.forall hsym h1 h2 hne) ha1 ha2

lemma rejected_of_not_nodup {smd : StateMachineDefinition} {st : StateTransitions}
    (hst : st ∈ smd.state_transitions) (h : ¬ st.allActions.Nodup) :
    ∃ stBad ∈ smd.state_transitions,
      stBad.check_transitions_consistency = false ∧
      state_machine smd = .error (.duplicateAction stBad.state) := by
  have hfalse : st.check_transitions_consistency = false :=
    Bool.eq_false_iff.mpr fun hc => h ((consistency_iff_nodup st).mp hc)
  have hsome : (smd.state_transitions.find?
      (fun b => !b.check_transitions_consistency)).isSome :=
    List.find?_isSome.mpr ⟨st, hst, by simp [hfalse]⟩
  obtain ⟨stBad, hfound⟩ := Option.isSome_iff_exists.mp hsome
  refine ⟨stBad, List.mem_of_find?_eq_some hfound, ?_, ?_⟩
  · have := List.find?_some hfound
    simpa using this
  · simp [state_machine, hfound]

/-! ### Definitions written from the spec's words, for comparison -/

/-- Written from the spec: the union of every StateId appearing anywhere,
as a block's own id or as any edge's target. -/
def specStateUnion (smd : StateMachineDefinition) : Finset String :=
  (smd.state_transitions.flatMap
    (fun st => st.state :: st.transitions.flatMap Transition.next_states)).toFinset

/-- Written from the spec: the union of every ActionId appearing in any edge. -/
def specActionUnion (smd : StateMachineDefinition) : Finset String :=
  (smd.state_transitions.flatMap
    (fun st => st.transitions.flatMap Transition.actions)).toFinset

/-- A possible iteration order of the unordered `states` hash set: a sequence
without repetition whose elements are exactly the collected state ids.  The
generator declares one variant per element, in this order. -/
def isStateIterationOrder (smd : StateMachineDefinition) (o : List String) : Prop :=
  o.Nodup ∧ o.toFinset = collectedStates smd

/-- A possible iteration order of the unordered `actions` hash set. -/
def isActionIterationOrder (smd : StateMachineDefinition) (o : List String) : Prop :=
  o.Nodup ∧ o.toFinset = collectedActions smd

/-- A two-state specification (one block `A { Go => B }`) used as concrete
input in several witnesses. -/
def exTwo : StateMachineDefinition :=
  ⟨"SW", "AW", [⟨"A", [⟨["Go"], ["B"]⟩]⟩]⟩

/-- A specification whose single block declares the action `Go` on two
different edges. -/
def exDup : StateMachineDefinition :=
  ⟨"SW", "AW", [⟨"S", [⟨["Go"], ["T"]⟩, ⟨["Go"], ["U"]⟩]⟩]⟩

/-- A specification whose single block declares the action `Go` twice inside
one single edge (`Go | Go => T`). -/
def exDupInner : StateMachineDefinition :=
  ⟨"SW", "AW", [⟨"S", [⟨["Go", "Go"], ["T"]⟩]⟩]⟩

/-! ### Claims -/

/-- C1, counterexample: in the float-parsing machine, `Finished` has no
declared block; dispatching `Dot` against it does NOT return the
`(state, action)` rejection pair — it returns `Ok` with the original state,
silently dropping the action.  This refutes the claim as stated. -/
theorem c1_terminal_not_rejected :
    next floatSMD floatHandlers
        ⟨"Finished", FPay.ps ⟨true, [3], [1, 4], true, []⟩⟩ ⟨"Dot", FAct.dotA⟩ =
      NextResult.ok ⟨"Finished", FPay.ps ⟨true, [3], [1, 4], true, []⟩⟩ ∧
    NextResult.ok (W := FAct) ⟨"Finished", FPay.ps ⟨true, [3], [1, 4], true, []⟩⟩ ≠
      NextResult.rejected ⟨"Finished", FPay.ps ⟨true, [3], [1, 4], true, []⟩⟩
        ⟨"Dot", FAct.dotA⟩ := by
  constructor
  · decide
  · decide

/-- C1, amended: for every state with no declared StateBlock (implicit
terminal state) and every action, the generated routine falls through to the
final `terminal_state => terminal_state` arm and returns `Ok` with the
original state unchanged, discarding the action; it does not produce the
recoverable `(state, action)` rejection pair. -/
theorem c1_terminal_returns_ok {V W : Type} (smd : StateMachineDefinition)
    (H : Handlers V W) (s : StateVal V) (a : ActionVal W)
    (h : smd.state_transitions.find? (fun st => decide (st.state = s.tag)) = none) :
    next smd H s a = .ok s := by
  simp [next, h]

/-- Witness for `c1_terminal_returns_ok` at the `Finished` state of the
float machine. -/
theorem c1_terminal_returns_ok_w :
    (floatSMD.state_transitions.find?
        (fun st => decide (st.state = "Finished")) = none) ∧
    next floatSMD floatHandlers ⟨"Finished", FPay.unitP⟩ ⟨"Eos", FAct.eosA⟩ =
      .ok ⟨"Finished", FPay.unitP⟩ :=
  ⟨by decide, c1_terminal_returns_ok floatSMD floatHandlers
    ⟨"Finished", FPay.unitP⟩ ⟨"Eos", FAct.eosA⟩ (by decide)⟩

/-- C2: for a declared edge of a consistent block, the post-condition check
of the generated routine fires exactly when the handler's returned variant
tag is outside the edge's declared allowed-target list; when it fires it
reports the source state name, the action name, the returned variant and the
allowed list. -/
theorem c2_edge_postcondition {V W : Type} (smd : StateMachineDefinition)
    (H : Handlers V W) (s : StateVal V) (a : ActionVal W)
    (st : StateTransitions) (t : Transition)
    (hfind : smd.state_transitions.find? (fun b => decide (b.state = s.tag)) = some st)
    (hcons : st.check_transitions_consistency = true)
    (ht : t ∈ st.transitions)
    (ha : a.tag ∈ t.actions)
    (hne : t.next_states ≠ []) :
    (((H s.tag a.tag s.payload a.payload).tag ∈ t.next_states) →
      next smd H s a = .ok (H s.tag a.tag s.payload a.payload)) ∧
    (((H s.tag a.tag s.payload a.payload).tag ∉ t.next_states) →
      next smd H s a = .contractViolation st.state a.tag
        (H s.tag a.tag s.payload a.payload).tag t.next_states) := by
  have hnodup : st.allActions.Nodup := (consistency_iff_nodup st).mp hcons
  have htf : t ∈ st.transitions.filter (fun u => !u.next_states.isEmpty) :=
    List.mem_filter.mpr ⟨ht, by simpa [List.isEmpty_iff] using hne⟩
  have hasome : (assertFind st a.tag).isSome := by
    unfold assertFind
    exact List.find?_isSome.mpr ⟨t, htf, by simpa using ha⟩
  obtain ⟨t', ht'⟩ := Option.isSome_iff_exists.mp hasome
  have ht'mem : t' ∈ st.transitions :=
    List.mem_of_mem_filter (List.mem_of_find?_eq_some ht')
  have ht'a : a.tag ∈ t'.actions := by
    simpa using List.find?_some ht'
  have htt : t' = t := unique_edge_of_nodup hnodup ht'mem ht ht'a ha
  subst htt
  have hdsome : (dispatchFind st a.tag).isSome := by
    unfold dispatchFind
    exact List.find?_isSome.mpr ⟨t', ht, by simpa using ha⟩
  obtain ⟨td, htd⟩ := Option.isSome_iff_exists.mp hdsome
  constructor
  · intro hmem
    simp [next, hfind, htd, ht', hmem]
  · intro hmem
    simp [next, hfind, htd, ht', hmem]

/-- Witness for `c2_edge_postcondition`, exercising both directions on the
float machine: `ParseSign` + `Digit` lands inside the allowed list, while
`ParseDigitsBeforeDot` + `Exponential` has a handler producing
`ParseScientificNotation`, outside the edge's allowed list
`[ParseDigitsAfterDot]`, so the fatal check fires. -/
theorem c2_edge_postcondition_w :
    (floatSMD.state_transitions.find?
        (fun b => decide (b.state = "ParseSign")) =
      some ⟨"ParseSign", [⟨["Sign", "Digit"], ["ParseDigitsBeforeDot"]⟩]⟩) ∧
    next floatSMD floatHandlers ⟨"ParseSign", FPay.unitP⟩ ⟨"Digit", FAct.digitA 3⟩ =
      .ok ⟨"ParseDigitsBeforeDot", FPay.ps ⟨true, [3], [], true, []⟩⟩ ∧
    next floatSMD floatHandlers
        ⟨"ParseDigitsBeforeDot", FPay.ps ⟨true, [3], [], true, []⟩⟩
        ⟨"Exponential", FAct.expA⟩ =
      .contractViolation "ParseDigitsBeforeDot" "Exponential"
        "ParseScientificNotation" ["ParseDigitsAfterDot"] := by
  refine ⟨by decide, ?_, ?_⟩
  · exact (c2_edge_postcondition floatSMD floatHandlers
      ⟨"ParseSign", FPay.unitP⟩ ⟨"Digit", FAct.digitA 3⟩
      ⟨"ParseSign", [⟨["Sign", "Digit"], ["ParseDigitsBeforeDot"]⟩]⟩
      ⟨["Sign", "Digit"], ["ParseDigitsBeforeDot"]⟩
      (by decide) (by decide) (by decide) (by decide) (by decide)).1 (by decide)
  · exact (c2_edge_postcondition floatSMD floatHandlers
      ⟨"ParseDigitsBeforeDot", FPay.ps ⟨true, [3], [], true, []⟩⟩
      ⟨"Exponential", FAct.expA⟩
      ⟨"ParseDigitsBeforeDot",
        [⟨["Digit"], ["ParseDigitsBeforeDot"]⟩,
         ⟨["Dot", "Exponential"], ["ParseDigitsAfterDot"]⟩,
         ⟨["Eos"], ["Finished"]⟩]⟩
      ⟨["Dot", "Exponential"], ["ParseDigitsAfterDot"]⟩
      (by decide) (by decide) (by decide) (by decide) (by decide)).2 (by decide)

/-- C3: a specification in which one action occurs in two different edges of
the same block is rejected before generation: `state_machine` returns a
duplicate-action error naming an offending (inconsistent) state and produces
no generated output. -/
theorem c3_duplicate_across_edges_rejected (smd : StateMachineDefinition)
    (st : StateTransitions) (hst : st ∈ smd.state_transitions)
    (i j : Fin st.transitions.length) (a : String) (hij : i ≠ j)
    (hai : a ∈ (st.transitions.get i).actions)
    (haj : a ∈ (st.transitions.get j).actions) :
    ∃ stBad ∈ smd.state_transitions,
      stBad.check_transitions_consistency = false ∧
      state_machine smd = .error (.duplicateAction stBad.state) := by
  apply rejected_of_not_nodup hst
  intro hnodup
  have hpw : st.transitions.Pairwise (fun u v => u.actions.Disjoint v.actions) :=
    List.pairwise_map.mp (List.nodup_flatten.mp hnodup).2
  have key : ∀ i j : Fin st.transitions.length, i.val < j.val →
      a ∈ (st.transitions.get i).actions → a ∈ (st.transitions.get j).actions → False := by
    intro i j hlt h1 h2
    have := List.pairwise_iff_getElem.mp hpw i.val j.val i.isLt j.isLt hlt
    exact this h1 h2
  rcases Nat.lt_trichotomy i.val j.val with hlt | heq | hgt
  · exact key i j hlt hai haj
  · exact hij (Fin.ext heq)
  · exact key j i hgt haj hai

/-- Witness for `c3_duplicate_across_edges_rejected` on `exDup`, whose block
`S` declares `Go` on two edges. -/
theorem c3_duplicate_across_edges_rejected_w :
    (⟨"S", [⟨["Go"], ["T"]⟩, ⟨["Go"], ["U"]⟩]⟩ : StateTransitions) ∈
        exDup.state_transitions ∧
    ∃ stBad ∈ exDup.state_transitions,
      stBad.check_transitions_consistency = false ∧
      state_machine exDup = .error (.duplicateAction stBad.state) :=
  ⟨by decide,
   c3_duplicate_across_edges_rejected exDup
     ⟨"S", [⟨["Go"], ["T"]⟩, ⟨["Go"], ["U"]⟩]⟩ (by decide)
     ⟨0, by decide⟩ ⟨1, by decide⟩ "Go" (by decide) (by decide) (by decide)⟩

/-- C10: the consistency check counts occurrences against distinct
identifiers, so an action repeated inside one single edge (`Go | Go => T`)
is likewise rejected with the duplicate-action error. -/
theorem c10_duplicate_within_edge_rejected (smd : StateMachineDefinition)
    (st : StateTransitions) (hst : st ∈ smd.state_transitions)
    (t : Transition) (ht : t ∈ st.transitions)
    (i j : Fin t.actions.length) (hij : i ≠ j)
    (heq : t.actions.get i = t.actions.get j) :
    ∃ stBad ∈ smd.state_transitions,
      stBad.check_transitions_consistency = false ∧
      state_machine smd = .error (.duplicateAction stBad.state) := by
  apply rejected_of_not_nodup hst
  intro hnodup
  have h1 : t.actions.Nodup :=
    (List.nodup_flatten.mp hnodup).1 t.actions (List.mem_map.mpr ⟨t, ht, rfl⟩)
  exact hij ((h1.get_inj_iff).mp heq)

/-- Witness for `c10_duplicate_within_edge_rejected` on `exDupInner`. -/
theorem c10_duplicate_within_edge_rejected_w :
    (⟨"S", [⟨["Go", "Go"], ["T"]⟩]⟩ : StateTransitions) ∈
        exDupInner.state_transitions ∧
    ∃ stBad ∈ exDupInner.state_transitions,
      stBad.check_transitions_consistency = false ∧
      state_machine exDupInner = .error (.duplicateAction stBad.state) :=
  ⟨by decide,
   c10_duplicate_within_edge_rejected exDupInner
     ⟨"S", [⟨["Go", "Go"], ["T"]⟩]⟩ (by decide)
     ⟨["Go", "Go"], ["T"]⟩ (by decide)
     ⟨0, by decide⟩ ⟨1, by decide⟩ (by decide) (by decide)⟩

/-- C4: for a specification accepted by the generator, the emitted
state-variant set is the union of all StateIds appearing as a block's own id
or as any edge's target, and the emitted action-variant set is the union of
all ActionIds appearing in any edge (both as written from the spec's words). -/
theorem c4_variant_sets (smd : StateMachineDefinition) (g : Generated)
    (h : state_machine smd = .ok g) :
    g.stateVariants = specStateUnion smd ∧ g.actionVariants = specActionUnion smd := by
  have hg : g = define_wrappers smd := by
    unfold state_machine at h
    cases hf : smd.state_transitions.find? (fun st => !st.check_transitions_consistency) with
    | none =>
      rw [hf] at h
      exact (Except.ok.injEq _ _).mp h |>.symm
    | some st =>
      rw [hf] at h
      cases h
  subst hg
  constructor
  · ext x
    simp only [define_wrappers, mem_collectedStates, specStateUnion,
      List.mem_toFinset, List.mem_flatMap, List.mem_cons]
  · ext x
    simp only [define_wrappers, mem_collectedActions, specActionUnion,
      List.mem_toFinset, List.mem_flatMap]

/-- Witness for `c4_variant_sets` on the float-parsing specification. -/
theorem c4_variant_sets_w :
    state_machine floatSMD = .ok (define_wrappers floatSMD) ∧
    (define_wrappers floatSMD).stateVariants = specStateUnion floatSMD ∧
    (define_wrappers floatSMD).actionVariants = specActionUnion floatSMD :=
  ⟨rfl, c4_variant_sets floatSMD (define_wrappers floatSMD) rfl⟩

/-- C5: a state with a declared block rejects, recoverably, every action
variant not declared in any of that block's edges: the original
`(state, action)` pair is returned unchanged. -/
theorem c5_undeclared_action_rejected {V W : Type} (smd : StateMachineDefinition)
    (H : Handlers V W) (s : StateVal V) (a : ActionVal W) (st : StateTransitions)
    (hfind : smd.state_transitions.find? (fun b => decide (b.state = s.tag)) = some st)
    (hnotin : ∀ t ∈ st.transitions, a.tag ∉ t.actions) :
    next smd H s a = .rejected s a := by
  have hd : dispatchFind st a.tag = none := by
    unfold dispatchFind
    rw [List.find?_eq_none]
    intro t htm
    simpa using hnotin t htm
  simp [next, hfind, hd]

/-- Witness for `c5_undeclared_action_rejected`: `ParseSign` declares only
`Sign` and `Digit`, so `Dot` is handed back unchanged. -/
theorem c5_undeclared_action_rejected_w :
    (floatSMD.state_transitions.find? (fun b => decide (b.state = "ParseSign")) =
      some ⟨"ParseSign", [⟨["Sign", "Digit"], ["ParseDigitsBeforeDot"]⟩]⟩) ∧
    next floatSMD floatHandlers ⟨"ParseSign", FPay.unitP⟩ ⟨"Dot", FAct.dotA⟩ =
      .rejected ⟨"ParseSign", FPay.unitP⟩ ⟨"Dot", FAct.dotA⟩ :=
  ⟨by decide,
   c5_undeclared_action_rejected floatSMD floatHandlers
     ⟨"ParseSign", FPay.unitP⟩ ⟨"Dot", FAct.dotA⟩
     ⟨"ParseSign", [⟨["Sign", "Digit"], ["ParseDigitsBeforeDot"]⟩]⟩
     (by decide) (by decide)⟩

/-- C6: the generated routine is deterministic — two invocations with
identical state value, action value and handler set give identical results
(the routine is a pure function of those three inputs). -/
theorem c6_next_deterministic {V W : Type} (smd : StateMachineDefinition)
    (H1 H2 : Handlers V W) (s1 s2 : StateVal V) (a1 a2 : ActionVal W)
    (hH : H1 = H2) (hs : s1 = s2) (ha : a1 = a2) :
    next smd H1 s1 a1 = next smd H2 s2 a2 := by
  subst hH
  subst hs
  subst ha
  rfl

/-- Witness for `c6_next_deterministic` on the float machine. -/
theorem c6_next_deterministic_w :
    floatHandlers = floatHandlers ∧
    next floatSMD floatHandlers ⟨"ParseSign", FPay.unitP⟩ ⟨"Digit", FAct.digitA 7⟩ =
      next floatSMD floatHandlers ⟨"ParseSign", FPay.unitP⟩ ⟨"Digit", FAct.digitA 7⟩ :=
  ⟨rfl, c6_next_deterministic floatSMD floatHandlers floatHandlers
    ⟨"ParseSign", FPay.unitP⟩ ⟨"ParseSign", FPay.unitP⟩
    ⟨"Digit", FAct.digitA 7⟩ ⟨"Digit", FAct.digitA 7⟩ rfl rfl rfl⟩

/-- C7, counterexample: the symbol collection is an unordered hash set, so
the order in which the collected identifiers are emitted as variants is any
iteration order of that set.  For `exTwo` both `["A", "B"]` and `["B", "A"]`
are iteration orders, and they differ: the emission order is not a function
of the specification, refuting the determinism claim as stated. -/
theorem c7_order_not_determined :
    isStateIterationOrder exTwo ["A", "B"] ∧
    isStateIterationOrder exTwo ["B", "A"] ∧
    (["A", "B"] : List String) ≠ ["B", "A"] := by
  refine ⟨⟨by decide, by decide⟩, ⟨by decide, by decide⟩, by decide⟩

/-- C7, amended: the symbol table builder is deterministic only up to order —
the collected state set and action set are functions of the specification,
so any two iteration orders of the hash sets are permutations of each other,
but the emitted variant order itself depends on the set's unspecified
iteration order. -/
theorem c7_order_perm (smd : StateMachineDefinition) :
    (∀ o1 o2 : List String, isStateIterationOrder smd o1 →
      isStateIterationOrder smd o2 → o1.Perm o2) ∧
    (∀ o1 o2 : List String, isActionIterationOrder smd o1 →
      isActionIterationOrder smd o2 → o1.Perm o2) := by
  constructor
  · intro o1 o2 h1 h2
    rw [List.perm_ext_iff_of_nodup h1.1 h2.1]
    intro x
    rw [← List.mem_toFinset, ← List.mem_toFinset, h1.2, h2.2]
  · intro o1 o2 h1 h2
    rw [List.perm_ext_iff_of_nodup h1.1 h2.1]
    intro x
    rw [← List.mem_toFinset, ← List.mem_toFinset, h1.2, h2.2]

/-- Witness for `c7_order_perm` on `exTwo`. -/
theorem c7_order_perm_w :
    isStateIterationOrder exTwo ["A", "B"] ∧
    isStateIterationOrder exTwo ["B", "A"] ∧
    (["A", "B"] : List String).Perm ["B", "A"] :=
  ⟨⟨by decide, by decide⟩, ⟨by decide, by decide⟩,
   (c7_order_perm exTwo).1 ["A", "B"] ["B", "A"]
     ⟨by decide, by decide⟩ ⟨by decide, by decide⟩⟩

/-- C9: driving the generated float machine from the `ParseSign` state with
actions `[Digit 3, Dot, Digit 1, Digit 4, Eos]` reaches `Finished` with
pre-dot digits `[3]` and post-dot digits `[1, 4]`. -/
theorem c9_float_scenario :
    drive floatSMD floatHandlers ⟨"ParseSign", FPay.unitP⟩
      [⟨"Digit", FAct.digitA 3⟩, ⟨"Dot", FAct.dotA⟩, ⟨"Digit", FAct.digitA 1⟩,
       ⟨"Digit", FAct.digitA 4⟩, ⟨"Eos", FAct.eosA⟩] =
      some ⟨"Finished", FPay.ps ⟨true, [3], [1, 4], true, []⟩⟩ := by
  decide

/-! ### The DSL surface: tokens and the parse routines

The specification text is a flat token sequence (identifiers, `,`, `|`,
`=>`, and braces).  Each parse routine mirrors one `Parse` impl or `syn`
combinator used by the Rust code: `parseAlts` is
`Punctuated::<Ident, Token![|]>::parse_separated_nonempty`,
`parseTransSeq` is `braced!` plus
`Punctuated::<Transition, Token![,]>::parse_terminated` (stopping at the
closing brace), and `parseBlockSeq` is the top-level
`Punctuated::<StateTransitions, Token![,]>::parse_terminated`.  Errors
carry the offending token (`none` at end of input) and its position. -/

inductive Tok where
  | ident (s : String)
  | comma
  | pipe
  | fatArrow
  | lbrace
  | rbrace
deriving DecidableEq

structure ParseErr where
  pos : Nat
  found : Option Tok
  msg : String
deriving DecidableEq

def parseIdent : List Tok → Nat → Except ParseErr (String × List Tok × Nat)
  | Tok.ident s :: rest, pos => .ok (s, rest, pos + 1)
  | tk :: _, pos => .error ⟨pos, some tk, "expected identifier"⟩
  | [], pos => .error ⟨pos, none, "expected identifier"⟩

def parseMoreAlts : List String → List Tok → Nat → Except ParseErr (List String × List Tok × Nat)
  | acc, Tok.pipe :: Tok.ident s :: rest, pos => parseMoreAlts (acc ++ [s]) rest (pos + 2)
  | _, Tok.pipe :: tk :: _, pos => .error ⟨pos + 1, some tk, "expected identifier"⟩
  | _, [Tok.pipe], pos => .error ⟨pos + 1, none, "expected identifier"⟩
  | acc, toks, pos => .ok (acc, toks, pos)

def parseAlts : List Tok → Nat → Except ParseErr (List String × List Tok × Nat)
  | Tok.ident s :: rest, pos => parseMoreAlts [s] rest (pos + 1)
  | tk :: _, pos => .error ⟨pos, some tk, "expected identifier"⟩
  | [], pos => .error ⟨pos, none, "expected identifier"⟩


lemma parseMoreAlts_le : ∀ (acc : List String) (toks : List Tok) (pos : Nat)
    (xs : List String) (toks' : List Tok) (pos' : Nat),
    parseMoreAlts acc toks pos = .ok (xs, toks', pos') → toks'.length ≤ toks.length := by
  intro acc toks pos
  induction acc, toks, pos using parseMoreAlts.induct with
  | case1 acc s rest pos ih =>
    intro xs toks' pos' h
    rw [parseMoreAlts] at h
    have := ih _ _ _ h
    simp only [List.length_cons]
    omega
  | case2 acc tk rest pos h1 =>
    intro xs toks' pos' h
    simp [parseMoreAlts] at h
  | case3 acc pos =>
    intro xs toks' pos' h
    simp [parseMoreAlts] at h
  | case4 acc toks pos h1 h2 h3 =>
    intro xs toks' pos' h
    rw [parseMoreAlts.eq_def] at h
    split at h
    · exact (h1 _ _ rfl).elim
    · exact (h2 _ _ rfl).elim
    · exact (h3 rfl).elim
    · simp only [Except.ok.injEq, Prod.mk.injEq] at h
      obtain ⟨-, h2', -⟩ := h
      exact h2' ▸ le_refl _

lemma parseAlts_le (toks : List Tok) (pos : Nat)
    {xs : List String} {toks' : List Tok} {pos' : Nat}
    (h : parseAlts toks pos = .ok (xs, toks', pos')) :
    toks'.length ≤ toks.length := by
  match toks with
  | Tok.ident s :: rest =>
    rw [parseAlts] at h
    have := parseMoreAlts_le _ _ _ _ _ _ h
    simp only [List.length_cons]
    omega
  | [] => simp [parseAlts] at h
  | Tok.comma :: _ => simp [parseAlts] at h
  | Tok.pipe :: _ => simp [parseAlts] at h
  | Tok.fatArrow :: _ => simp [parseAlts] at h
  | Tok.lbrace :: _ => simp [parseAlts] at h
  | Tok.rbrace :: _ => simp [parseAlts] at h

def parseTransitionAst (toks : List Tok) (pos : Nat) :
    Except ParseErr (Transition × List Tok × Nat) :=
  match parseAlts toks pos with
  | .error e => .error e
  | .ok (acts, toks1, pos1) =>
    match toks1 with
    | Tok.fatArrow :: rest =>
      (match parseAlts rest (pos1 + 1) with
       | .error e => .error e
       | .ok (tgts, toks2, pos2) => .ok (⟨acts, tgts⟩, toks2, pos2))
    | tk :: _ => .error ⟨pos1, some tk, "expected =>"⟩
    | [] => .error ⟨pos1, none, "expected =>"⟩

lemma parseTransitionAst_le (toks : List Tok) (pos : Nat)
    {t : Transition} {toks' : List Tok} {pos' : Nat}
    (h : parseTransitionAst toks pos = .ok (t, toks', pos')) :
    toks'.length ≤ toks.length := by
  rw [parseTransitionAst] at h
  split at h
  · cases h
  · next acts toks1 pos1 h1 =>
    split at h
    · next rest =>
      split at h
      · cases h
      · next tgts toks2 pos2 h2 =>
        simp only [Except.ok.injEq, Prod.mk.injEq] at h
        obtain ⟨-, hq, -⟩ := h
        subst hq
        have le1 : (Tok.fatArrow :: rest).length ≤ toks.length := parseAlts_le _ _ h1
        have le2 : toks2.length ≤ rest.length := parseAlts_le _ _ h2
        simp only [List.length_cons] at le1
        omega
    · cases h
    · cases h

def parseTransSeq : (toks : List Tok) → Nat → Except ParseErr (List Transition × List Tok × Nat)
  | [], pos => .error ⟨pos, none, "unterminated brace group"⟩
  | Tok.rbrace :: rest, pos => .ok ([], rest, pos + 1)
  | toks, pos =>
    match h1 : parseTransitionAst toks pos with
    | .error e => .error e
    | .ok (t, toks1, pos1) =>
      match h2 : toks1 with
      | Tok.rbrace :: rest => .ok ([t], rest, pos1 + 1)
      | Tok.comma :: rest =>
        match parseTransSeq rest (pos1 + 1) with
        | .error e => .error e
        | .ok (ts, r, p) => .ok (t :: ts, r, p)
      | tk :: _ => .error ⟨pos1, some tk, "expected comma"⟩
      | [] => .error ⟨pos1, none, "unterminated brace group"⟩
termination_by toks _ => toks.length
decreasing_by
  have := parseTransitionAst_le _ _ h1
  subst h2
  simp only [List.length_cons] at this
  omega

lemma parseTransSeq_le_aux : ∀ (n : Nat) (toks : List Tok), toks.length ≤ n →
    ∀ (pos : Nat) (ts : List Transition) (toks' : List Tok) (pos' : Nat),
    parseTransSeq toks pos = .ok (ts, toks', pos') → toks'.length ≤ toks.length := by
  intro n
  induction n with
  | zero =>
    intro toks hlen pos ts toks' pos' h
    have htoks : toks = [] := List.length_eq_zero.mp (Nat.le_zero.mp hlen)
    subst htoks
    simp [parseTransSeq] at h
  | succ n ih =>
    intro toks hlen pos ts toks' pos' h
    rw [parseTransSeq.eq_def] at h
    split at h
    · cases h
    · next rest pos =>
      simp only [Except.ok.injEq, Prod.mk.injEq] at h
      obtain ⟨-, hq, -⟩ := h
      subst hq
      simp
    · split at h
      · cases h
      · next t toks1 pos1 h1 =>
        split at h
        · next rest heq =>
          simp only [Except.ok.injEq, Prod.mk.injEq] at h
          obtain ⟨-, hq, -⟩ := h
          subst hq
          have := parseTransitionAst_le _ _ heq
          simp only [List.length_cons] at this
          omega
        · next rest heq =>
          split at h
          · cases h
          · next ts2 r p hrec =>
            have hle1 := parseTransitionAst_le _ _ heq
            simp only [List.length_cons] at hle1
            have hrl : rest.length ≤ n := by omega
            have hr := ih rest hrl (pos1 + 1) ts2 r p hrec
            simp only [Except.ok.injEq, Prod.mk.injEq] at h
            obtain ⟨-, hq, -⟩ := h
            subst hq
            omega
        · cases h
        · cases h

lemma parseTransSeq_le (toks : List Tok) (pos : Nat)
    {ts : List Transition} {toks' : List Tok} {pos' : Nat}
    (h : parseTransSeq toks pos = .ok (ts, toks', pos')) :
    toks'.length ≤ toks.length :=
  parseTransSeq_le_aux toks.length toks (le_refl _) pos ts toks' pos' h

def parseBlock (toks : List Tok) (pos : Nat) :
    Except ParseErr (StateTransitions × List Tok × Nat) :=
  match parseIdent toks pos with
  | .error e => .error e
  | .ok (s, toks1, pos1) =>
    match toks1 with
    | Tok.lbrace :: rest =>
      (match parseTransSeq rest (pos1 + 1) with
       | .error e => .error e
       | .ok (ts, toks2, pos2) => .ok (⟨s, ts⟩, toks2, pos2))
    | tk :: _ => .error ⟨pos1, some tk, "expected brace group"⟩
    | [] => .error ⟨pos1, none, "expected brace group"⟩

lemma parseBlock_le (toks : List Tok) (pos : Nat)
    {b : StateTransitions} {toks' : List Tok} {pos' : Nat}
    (h : parseBlock toks pos = .ok (b, toks', pos')) :
    toks'.length ≤ toks.length := by
  rw [parseBlock] at h
  split at h
  · cases h
  · next s toks1 pos1 h1 =>
    split at h
    · next rest =>
      split at h
      · cases h
      · next ts toks2 pos2 h2 =>
        simp only [Except.ok.injEq, Prod.mk.injEq] at h
        obtain ⟨-, hq, -⟩ := h
        subst hq
        have hle2 := parseTransSeq_le _ _ h2
        match toks, h1 with
        | Tok.ident s0 :: r0, h1 =>
          rw [parseIdent] at h1
          simp only [Except.ok.injEq, Prod.mk.injEq] at h1
          obtain ⟨-, hq1, -⟩ := h1
          subst hq1
          simp only [List.length_cons] at *
          omega
    · cases h
    · cases h

def parseBlockSeq : (toks : List Tok) → Nat → Except ParseErr (List StateTransitions × List Tok × Nat)
  | [], pos => .ok ([], [], pos)
  | toks, pos =>
    match h1 : parseBlock toks pos with
    | .error e => .error e
    | .ok (b, toks1, pos1) =>
      match h2 : toks1 with
      | [] => .ok ([b], [], pos1)
      | Tok.comma :: rest =>
        match parseBlockSeq rest (pos1 + 1) with
        | .error e => .error e
        | .ok (bs, r, p) => .ok (b :: bs, r, p)
      | tk :: _ => .error ⟨pos1, some tk, "expected comma"⟩
termination_by toks _ => toks.length
decreasing_by
  have := parseBlock_le _ _ h1
  subst h2
  simp only [List.length_cons] at this
  omega

def parseStateMachineDefinition (toks : List Tok) :
    Except ParseErr StateMachineDefinition :=
  match parseIdent toks 0 with
  | .error e => .error e
  | .ok (sw, toks1, pos1) =>
    match toks1 with
    | Tok.comma :: r1 =>
      (match parseIdent r1 (pos1 + 1) with
       | .error e => .error e
       | .ok (aw, toks2, pos2) =>
         match toks2 with
         | Tok.comma :: r2 =>
           (match parseBlockSeq r2 (pos2 + 1) with
            | .error e => .error e
            | .ok (bs, _, _) => .ok ⟨sw, aw, bs⟩)
         | tk :: _ => .error ⟨pos2, some tk, "expected comma"⟩
         | [] => .error ⟨pos2, none, "expected comma"⟩)
    | tk :: _ => .error ⟨pos1, some tk, "expected comma"⟩
    | [] => .error ⟨pos1, none, "expected comma"⟩

def altToks : List String → List Tok
  | [] => []
  | s :: rest => Tok.ident s :: rest.flatMap (fun x => [Tok.pipe, Tok.ident x])

def transToks (t : Transition) : List Tok :=
  altToks t.actions ++ Tok.fatArrow :: altToks t.next_states

def sepComma : List (List Tok) → List Tok
  | [] => []
  | [x] => x
  | x :: xs => x ++ Tok.comma :: sepComma xs

def blockToks (b : StateTransitions) : List Tok :=
  Tok.ident b.state :: Tok.lbrace :: (sepComma (b.transitions.map transToks) ++ [Tok.rbrace])

def smdToks (d : StateMachineDefinition) : List Tok :=
  Tok.ident d.state_wrapper :: Tok.comma :: Tok.ident d.action_wrapper :: Tok.comma ::
    sepComma (d.state_transitions.map blockToks)

def headNotPipe : List Tok → Prop
  | Tok.pipe :: _ => False
  | _ => True

lemma parseMoreAlts_complete : ∀ (xs acc : List String) (suffix : List Tok) (pos : Nat),
    headNotPipe suffix →
    ∃ p, parseMoreAlts acc (xs.flatMap (fun x => [Tok.pipe, Tok.ident x]) ++ suffix) pos =
      .ok (acc ++ xs, suffix, p) := by
  intro xs
  induction xs with
  | nil =>
    intro acc suffix pos hs
    refine ⟨pos, ?_⟩
    simp only [List.flatMap_nil, List.nil_append, List.append_nil]
    match suffix, hs with
    | [], _ => rw [parseMoreAlts] <;> simp
    | Tok.ident s :: r, _ => rw [parseMoreAlts] <;> simp
    | Tok.comma :: r, _ => rw [parseMoreAlts] <;> simp
    | Tok.fatArrow :: r, _ => rw [parseMoreAlts] <;> simp
    | Tok.lbrace :: r, _ => rw [parseMoreAlts] <;> simp
    | Tok.rbrace :: r, _ => rw [parseMoreAlts] <;> simp
  | cons x xs ih =>
    intro acc suffix pos hs
    obtain ⟨p, hp⟩ := ih (acc ++ [x]) suffix (pos + 2) hs
    refine ⟨p, ?_⟩
    simp only [List.flatMap_cons, List.cons_append, List.append_assoc]
    rw [parseMoreAlts]
    simp only [List.nil_append]
    simp only [List.append_assoc, List.singleton_append] at hp
    exact hp

lemma parseAlts_complete (l : List String) (hl : l ≠ []) (suffix : List Tok)
    (hs : headNotPipe suffix) (pos : Nat) :
    ∃ p, parseAlts (altToks l ++ suffix) pos = .ok (l, suffix, p) := by
  match l, hl with
  | s :: xs, _ =>
    obtain ⟨p, hp⟩ := parseMoreAlts_complete xs [s] suffix (pos + 1) hs
    refine ⟨p, ?_⟩
    simp only [altToks, List.cons_append]
    rw [parseAlts]
    simpa using hp

lemma parseTransitionAst_complete (t : Transition) (ha : t.actions ≠ [])
    (hn : t.next_states ≠ []) (suffix : List Tok) (hs : headNotPipe suffix) (pos : Nat) :
    ∃ p, parseTransitionAst (transToks t ++ suffix) pos = .ok (t, suffix, p) := by
  obtain ⟨p1, hp1⟩ := parseAlts_complete t.actions ha
    (Tok.fatArrow :: (altToks t.next_states ++ suffix)) trivial pos
  obtain ⟨p2, hp2⟩ := parseAlts_complete t.next_states hn suffix hs (p1 + 1)
  refine ⟨p2, ?_⟩
  rw [parseTransitionAst]
  simp only [transToks, List.append_assoc, List.cons_append]
  rw [hp1]
  simp [hp2]

lemma parseTransSeq_complete : ∀ (ts : List Transition),
    (∀ t ∈ ts, t.actions ≠ [] ∧ t.next_states ≠ []) →
    ∀ (suffix : List Tok) (pos : Nat),
    ∃ p, parseTransSeq (sepComma (ts.map transToks) ++ (Tok.rbrace :: suffix)) pos =
      .ok (ts, suffix, p) := by
  intro ts
  induction ts with
  | nil =>
    intro _ suffix pos
    refine ⟨pos + 1, ?_⟩
    simp only [List.map_nil, sepComma, List.nil_append]
    rw [parseTransSeq]
  | cons t ts ih =>
    intro hwf suffix pos
    have hta := (hwf t (List.mem_cons_self t ts)).1
    have htn := (hwf t (List.mem_cons_self t ts)).2
    match hacts : t.actions, hta with
    | s :: as, _ =>
    match ts, ih with
    | [], _ =>
      simp only [List.map_cons, List.map_nil, sepComma]
      obtain ⟨p1, hp1⟩ := parseTransitionAst_complete t hta htn
        (Tok.rbrace :: suffix) trivial pos
      refine ⟨p1 + 1, ?_⟩
      have hshape : transToks t ++ (Tok.rbrace :: suffix) =
          Tok.ident s :: (as.flatMap (fun x => [Tok.pipe, Tok.ident x]) ++
            (Tok.fatArrow :: altToks t.next_states) ++ (Tok.rbrace :: suffix)) := by
        simp [transToks, altToks, hacts, List.append_assoc]
      rw [hshape]
      rw [parseTransSeq.eq_def]
      simp only []
      rw [← hshape]
      split
      · next e heq =>
        rw [hp1] at heq
        cases heq
      · next t1 toks1 pos1 heq =>
        rw [hp1] at heq
        simp only [Except.ok.injEq, Prod.mk.injEq] at heq
        obtain ⟨rfl, rfl, rfl⟩ := heq
        rfl
    | t2 :: ts2, ih =>
      have hwf2 : ∀ u ∈ t2 :: ts2, u.actions ≠ [] ∧ u.next_states ≠ [] :=
        fun u hu => hwf u (List.mem_cons_of_mem t hu)
      obtain ⟨p1, hp1⟩ := parseTransitionAst_complete t hta htn
        (Tok.comma :: (sepComma ((t2 :: ts2).map transToks) ++ Tok.rbrace :: suffix))
        trivial pos
      obtain ⟨p, hp⟩ := ih hwf2 suffix (p1 + 1)
      refine ⟨p, ?_⟩
      have hin : sepComma ((t :: t2 :: ts2).map transToks) ++ (Tok.rbrace :: suffix) =
          transToks t ++
            (Tok.comma :: (sepComma ((t2 :: ts2).map transToks) ++ Tok.rbrace :: suffix)) := by
        simp [sepComma, List.append_assoc]
      have hshape : transToks t ++
          (Tok.comma :: (sepComma ((t2 :: ts2).map transToks) ++ Tok.rbrace :: suffix)) =
          Tok.ident s :: (as.flatMap (fun x => [Tok.pipe, Tok.ident x]) ++
            (Tok.fatArrow :: altToks t.next_states) ++
            (Tok.comma :: (sepComma ((t2 :: ts2).map transToks) ++ Tok.rbrace :: suffix))) := by
        simp [transToks, altToks, hacts, List.append_assoc]
      rw [hin, hshape]
      rw [parseTransSeq.eq_def]
      simp only []
      rw [← hshape]
      split
      · next e heq =>
        rw [hp1] at heq
        cases heq
      · next t1 toks1 pos1 heq =>
        rw [hp1] at heq
        simp only [Except.ok.injEq, Prod.mk.injEq] at heq
        obtain ⟨rfl, rfl, rfl⟩ := heq
        simp only [List.map_cons] at hp ⊢
        rw [hp]

lemma parseBlock_complete (b : StateTransitions)
    (hb : ∀ t ∈ b.transitions, t.actions ≠ [] ∧ t.next_states ≠ [])
    (suffix : List Tok) (pos : Nat) :
    ∃ p, parseBlock (blockToks b ++ suffix) pos = .ok (b, suffix, p) := by
  obtain ⟨p, hp⟩ := parseTransSeq_complete b.transitions hb suffix (pos + 1 + 1)
  refine ⟨p, ?_⟩
  rw [parseBlock]
  simp only [blockToks, List.cons_append, List.append_assoc, List.singleton_append]
  rw [parseIdent]
  simp only [List.nil_append]
  rw [hp]

lemma parseBlockSeq_complete : ∀ (bs : List StateTransitions),
    (∀ b ∈ bs, ∀ t ∈ b.transitions, t.actions ≠ [] ∧ t.next_states ≠ []) →
    ∀ (pos : Nat),
    ∃ p, parseBlockSeq (sepComma (bs.map blockToks)) pos = .ok (bs, [], p) := by
  intro bs
  induction bs with
  | nil =>
    intro _ pos
    refine ⟨pos, ?_⟩
    simp only [List.map_nil, sepComma]
    rw [parseBlockSeq]
  | cons b bs ih =>
    intro hwf pos
    have hb := hwf b (List.mem_cons_self b bs)
    match bs, ih with
    | [], _ =>
      obtain ⟨p1, hp1⟩ := parseBlock_complete b hb [] pos
      simp only [List.append_nil] at hp1
      refine ⟨p1, ?_⟩
      simp only [List.map_cons, List.map_nil, sepComma]
      have hshape : blockToks b = Tok.ident b.state :: (Tok.lbrace ::
          (sepComma (b.transitions.map transToks) ++ [Tok.rbrace])) := by
        simp [blockToks]
      rw [hshape]
      rw [parseBlockSeq.eq_def]
      simp only []
      rw [← hshape]
      split
      · next e heq =>
        rw [hp1] at heq
        cases heq
      · next b1 toks1 pos1 heq =>
        rw [hp1] at heq
        simp only [Except.ok.injEq, Prod.mk.injEq] at heq
        obtain ⟨rfl, rfl, rfl⟩ := heq
        rfl
    | b2 :: bs2, ih =>
      have hwf2 : ∀ u ∈ b2 :: bs2, ∀ t ∈ u.transitions,
          t.actions ≠ [] ∧ t.next_states ≠ [] :=
        fun u hu => hwf u (List.mem_cons_of_mem b hu)
      obtain ⟨p1, hp1⟩ := parseBlock_complete b hb
        (Tok.comma :: sepComma ((b2 :: bs2).map blockToks)) pos
      obtain ⟨p, hp⟩ := ih hwf2 (p1 + 1)
      refine ⟨p, ?_⟩
      have hin : sepComma ((b :: b2 :: bs2).map blockToks) =
          blockToks b ++ (Tok.comma :: sepComma ((b2 :: bs2).map blockToks)) := by
        simp [sepComma]
      have hshape : blockToks b ++ (Tok.comma :: sepComma ((b2 :: bs2).map blockToks)) =
          Tok.ident b.state :: (Tok.lbrace ::
            (sepComma (b.transitions.map transToks) ++ [Tok.rbrace]) ++
            (Tok.comma :: sepComma ((b2 :: bs2).map blockToks))) := by
        simp [blockToks, List.append_assoc]
      rw [hin, hshape]
      rw [parseBlockSeq.eq_def]
      simp only []
      rw [← hshape]
      split
      · next e heq =>
        rw [hp1] at heq
        cases heq
      · next b1 toks1 pos1 heq =>
        rw [hp1] at heq
        simp only [Except.ok.injEq, Prod.mk.injEq] at heq
        obtain ⟨rfl, rfl, rfl⟩ := heq
        simp only [List.map_cons] at hp ⊢
        rw [hp]

lemma parseStateMachineDefinition_complete (d : StateMachineDefinition)
    (hd : ∀ b ∈ d.state_transitions, ∀ t ∈ b.transitions,
      t.actions ≠ [] ∧ t.next_states ≠ []) :
    parseStateMachineDefinition (smdToks d) = .ok d := by
  obtain ⟨p, hp⟩ := parseBlockSeq_complete d.state_transitions hd (0 + 1 + 1 + 1 + 1)
  rw [parseStateMachineDefinition]
  simp only [smdToks]
  rw [parseIdent]
  simp only []
  rw [parseIdent]
  simp only []
  rw [hp]

def badMissingComma : List Tok := [Tok.ident "A", Tok.ident "B"]

def badEmptyAlt : List Tok :=
  [Tok.ident "W", Tok.comma, Tok.ident "X", Tok.comma,
   Tok.ident "S", Tok.lbrace, Tok.fatArrow, Tok.ident "T", Tok.rbrace]

def badUnterminated : List Tok :=
  [Tok.ident "W", Tok.comma, Tok.ident "X", Tok.comma, Tok.ident "S", Tok.lbrace]


lemma bad3_transSeq : parseTransSeq ([] : List Tok) 6 =
    .error ⟨6, none, "unterminated brace group"⟩ := by
  rw [parseTransSeq]

lemma bad3_block : parseBlock [Tok.ident "S", Tok.lbrace] 4 =
    .error ⟨6, none, "unterminated brace group"⟩ := by
  rw [parseBlock]
  simp only [parseIdent]
  rw [bad3_transSeq]

lemma bad3_blockSeq : parseBlockSeq [Tok.ident "S", Tok.lbrace] 4 =
    .error ⟨6, none, "unterminated brace group"⟩ := by
  rw [parseBlockSeq.eq_def]
  simp only []
  split
  · next e heq =>
    rw [bad3_block] at heq
    cases heq
    rfl
  · next b toks1 pos1 heq =>
    rw [bad3_block] at heq
    cases heq


lemma bad2_transAst : parseTransitionAst [Tok.fatArrow, Tok.ident "T", Tok.rbrace] 6 =
    .error ⟨6, some Tok.fatArrow, "expected identifier"⟩ := rfl

lemma bad2_transSeq : parseTransSeq [Tok.fatArrow, Tok.ident "T", Tok.rbrace] 6 =
    .error ⟨6, some Tok.fatArrow, "expected identifier"⟩ := by
  rw [parseTransSeq.eq_def]
  simp only []
  split
  · next e heq =>
    rw [bad2_transAst] at heq
    cases heq
    rfl
  · next t toks1 pos1 heq =>
    rw [bad2_transAst] at heq
    cases heq

lemma bad2_block :
    parseBlock [Tok.ident "S", Tok.lbrace, Tok.fatArrow, Tok.ident "T", Tok.rbrace] 4 =
    .error ⟨6, some Tok.fatArrow, "expected identifier"⟩ := by
  rw [parseBlock]
  simp only [parseIdent]
  rw [bad2_transSeq]

lemma bad2_blockSeq :
    parseBlockSeq [Tok.ident "S", Tok.lbrace, Tok.fatArrow, Tok.ident "T", Tok.rbrace] 4 =
    .error ⟨6, some Tok.fatArrow, "expected identifier"⟩ := by
  rw [parseBlockSeq.eq_def]
  simp only []
  split
  · next e heq =>
    rw [bad2_block] at heq
    cases heq
    rfl
  · next b toks1 pos1 heq =>
    rw [bad2_block] at heq
    cases heq


/-- C8: parsing is total (every token sequence yields an answer) and
deterministic; every well-formed specification printed in the surface
grammar parses back to exactly its AST; and the malformed categories fail
with an error reporting the offending token and its position: a missing
separator (`A B`), an empty alternative list (an edge starting with `=>`),
and an unterminated brace group.  Parsing is a pure function, so it has no
side effects beyond the returned AST. -/
theorem c8_parse_contract :
    (∀ d : StateMachineDefinition,
      (∀ b ∈ d.state_transitions, ∀ t ∈ b.transitions,
        t.actions ≠ [] ∧ t.next_states ≠ []) →
      parseStateMachineDefinition (smdToks d) = .ok d) ∧
    (∀ ts1 ts2 : List Tok, ts1 = ts2 →
      parseStateMachineDefinition ts1 = parseStateMachineDefinition ts2) ∧
    parseStateMachineDefinition badMissingComma =
      .error ⟨1, some (Tok.ident "B"), "expected comma"⟩ ∧
    parseStateMachineDefinition badEmptyAlt =
      .error ⟨6, some Tok.fatArrow, "expected identifier"⟩ ∧
    parseStateMachineDefinition badUnterminated =
      .error ⟨6, none, "unterminated brace group"⟩ := by
  refine ⟨parseStateMachineDefinition_complete, fun ts1 ts2 h => h ▸ rfl, rfl, ?_, ?_⟩
  · rw [parseStateMachineDefinition]
    simp only [badEmptyAlt, parseIdent]
    rw [bad2_blockSeq]
  · rw [parseStateMachineDefinition]
    simp only [badUnterminated, parseIdent]
    rw [bad3_blockSeq]

/-- Witness for `c8_parse_contract`: the float-parsing specification is
well-formed and round-trips through the parser. -/
theorem c8_parse_contract_w :
    (∀ b ∈ floatSMD.state_transitions, ∀ t ∈ b.transitions,
      t.actions ≠ [] ∧ t.next_states ≠ []) ∧
    parseStateMachineDefinition (smdToks floatSMD) = .ok floatSMD :=
  ⟨by decide, c8_parse_contract.1 floatSMD (by decide)⟩
